import Mathlib

/-!
Shallow embedding of wyoming_vosk/__main__.py: the model-resolution cache
(State.get_model) and the per-connection event handler (VoskEventHandler),
together with its helpers _load_recognizer, _fix_transcript and
_has_unknown.  The external collaborators that live outside the main
module (the per-language model catalog MODELS, the CASING_FOR_MODEL and
UNK_FOR_MODEL tables, download_model, load_sentences_for_language,
correct_sentence, alpha2digit, the Kaldi decoder and the audio converter)
are parameters of the embedding, gathered in an Env record, matching the
module boundaries of the source.  Effects (disk probes, Model
constructions, download_model calls, KaldiRecognizer constructions) are
logged explicitly so that caching and laziness properties are statable.
-/

set_option autoImplicit false

namespace WyomingVosk

/-- Helper for pySplit: cur accumulates the current word reversed. -/
def pySplitAux (cur : List Char) : List Char → List String
  | [] => if cur.isEmpty then [] else [String.mk cur.reverse]
  | c :: cs =>
    if c.isWhitespace then
      if cur.isEmpty then pySplitAux [] cs
      else String.mk cur.reverse :: pySplitAux [] cs
    else pySplitAux (c :: cur) cs

/-- Python str.split() with no arguments: split on whitespace runs,
dropping empty pieces. -/
def pySplit (s : String) : List String :=
  pySplitAux [] s.data

/-- Stand-in for Python str.casefold; agrees with it on ASCII strings. -/
def pyCasefold (s : String) : String := ⟨s.data.map Char.toLower⟩

/-- Stand-in for Python str.lower; agrees with it on ASCII strings. -/
def pyLower (s : String) : String := ⟨s.data.map Char.toLower⟩

/-- Stand-in for Python str.upper; agrees with it on ASCII strings. -/
def pyUpper (s : String) : String := ⟨s.data.map Char.toUpper⟩

/-- The _CASING function table (source lines 27-32); the none result
models the KeyError raised on a name outside the table. -/
def _CASING (name : String) : Option (String → String) :=
  if name = "casefold" then some pyCasefold
  else if name = "lower" then some pyLower
  else if name = "upper" then some pyUpper
  else if name = "keep" then some (fun s => s)
  else none

/-- _DEFAULT_CASING (source line 33). -/
def _DEFAULT_CASING : String := "casefold"

/-- _DEFAULT_UNK (source line 34). -/
def _DEFAULT_UNK : String := "[unk]"

/-- Lookup in a Python dict of strings, modelled as an association list
(first binding wins, as the dicts in question are built without
duplicate keys). -/
def dictGet (m : List (String × String)) (k : String) : Option String :=
  (m.find? (fun p => p.1 == k)).map (fun p => p.2)

/-- Python dict.get(key, default) for a string-keyed dict. -/
def dictGetD (m : List (String × String)) (k : String) (d : String) : String :=
  (dictGet m k).getD d

/-- Python dict.get(key, default) where the key is Optional[str]; a None
key is never a key of the dicts in question, so it yields the default. -/
def optKeyGet (m : String → Option String) (k : Option String) (d : String) : String :=
  match k with
  | some s => (m s).getD d
  | none => d

/-- Python truthiness test of an Optional[str]: falsy iff None or empty. -/
def strFalsy : Option String → Bool
  | none => true
  | some s => s == ""

/-- Python x or y where x is Optional[str] and y a str. -/
def pyOrOpt (a : Option String) (b : String) : String :=
  match a with
  | some s => if s = "" then b else s
  | none => b

/-- Python list indexing, with negative indices counting from the end;
none models the IndexError raised out of range. -/
def pyGet (xs : List String) (i : Int) : Option String :=
  if 0 ≤ i then xs.get? i.toNat
  else if -(xs.length : Int) ≤ i then xs.get? ((xs.length : Int) + i).toNat
  else none

/-- A loaded vosk Model, identified by the directory path handed to its
constructor. -/
structure Model where
  path : String
deriving DecidableEq

/-- Result of load_sentences_for_language (external collaborator from
the sentences module): database file presence, the rows of SELECT word
from WORDS, and the configured unknown text. -/
structure LangConfig where
  databaseIsFile : Bool
  words : List String
  unknownText : Option String
deriving DecidableEq

/-- Score cutoff of --correct-sentences; the code only tests its
presence and passes the value through to correct_sentence, so its
numeric type is irrelevant and it is modelled as Int. -/
abbrev Score := Int

/-- Uncaught Python exceptions that terminate a session task. -/
inductive Err where
  | keyError
  | indexError
  | assertionError
deriving DecidableEq

/-- The CLI argument namespace after post-processing in main()
(model_for_language and casing_for_language already converted to
dicts). -/
structure Args where
  dataDir : List String
  downloadDir : String
  language : String
  modelForLanguage : List (String × String)
  casingForLanguage : List (String × String)
  modelIndex : Int
  sentencesDir : Option String
  databaseDir : Option String
  correctSentences : Option Score
  limitSentences : Bool
  allowUnknown : Bool

/-- The external collaborators of the main module. -/
structure Env where
  MODELS : String → Option (List String)
  diskHas : String → String → Bool
  downloadPath : String → String → String → String
  CASING_FOR_MODEL : String → Option String
  UNK_FOR_MODEL : String → Option String
  loadSentences : Option String → String → Option String → Option LangConfig
  decode : List String → Option (List String) → Model → String
  alphaDigit : String → Option String → String
  correctSentence : String → LangConfig → Option Score → String
  convert : String → String

/-- Name resolution at the head of State.get_model (source lines
47-57): per-language override wins over the requested name; a falsy
name falls back to the catalog entry at min(model_index, n-1) with
Python indexing; KeyError on a language absent from MODELS, IndexError
when the index is out of range. -/
def resolveName (env : Env) (args : Args) (language : String)
    (modelName : Option String) : Except Err String :=
  let modelName :=
    match dictGet args.modelForLanguage language with
    | some v => some v
    | none => modelName
  if strFalsy modelName then
    match env.MODELS language with
    | none => .error .keyError
    | some availableModels =>
      match pyGet availableModels
          (min args.modelIndex ((availableModels.length : Int) - 1)) with
      | none => .error .indexError
      | some name => .ok name
  else .ok (modelName.getD "")

/-- Effect log of one or more get_model calls: number of is_dir probes,
the paths handed to the Model constructor, and the model names passed
to download_model. -/
structure Effects where
  probes : Nat
  loads : List String
  downloads : List String
deriving DecidableEq

def noEffects : Effects := ⟨0, [], []⟩

def Effects.append (a b : Effects) : Effects :=
  ⟨a.probes + b.probes, a.loads ++ b.loads, a.downloads ++ b.downloads⟩

/-- The shared State of the process: the model cache (a Python dict
mapping model name to the (name, Model) pair). -/
structure St where
  models : List (String × (String × Model))
deriving DecidableEq

/-- Lookup in the model cache. -/
def cacheGet (models : List (String × (String × Model))) (k : String) :
    Option (String × Model) :=
  (models.find? (fun p => p.1 == k)).map (fun p => p.2)

/-- The disk-search loop of get_model (source lines 64-72): scan the
data dirs in order for a directory named after the model; returns the
first hit and the number of is_dir probes performed. -/
def findOnDisk (env : Env) (dataDirs : List String) (name : String) :
    Option String × Nat :=
  match dataDirs with
  | [] => (none, 0)
  | d :: rest =>
    if env.diskHas d name then (some (d ++ "/" ++ name), 1)
    else
      let r := findOnDisk env rest name
      (r.1, r.2 + 1)

/-- State.get_model (source lines 44-80): resolve the name, hit the
cache, else search the data dirs, else download; a fresh Model is
cached before being returned. -/
def getModel (env : Env) (args : Args) (st : St) (language : String)
    (modelName : Option String) :
    Except Err (St × (String × Model) × Effects) :=
  match resolveName env args language modelName with
  | .error e => .error e
  | .ok name =>
    match cacheGet st.models name with
    | some nameAndModel => .ok (st, nameAndModel, noEffects)
    | none =>
      match findOnDisk env args.dataDir name with
      | (some modelDir, k) =>
        let nameAndModel := (name, Model.mk modelDir)
        .ok (⟨st.models ++ [(name, nameAndModel)]⟩, nameAndModel,
          ⟨k, [modelDir], []⟩)
      | (none, k) =>
        let modelDir := env.downloadPath language name args.downloadDir
        let nameAndModel := (name, Model.mk modelDir)
        .ok (⟨st.models ++ [(name, nameAndModel)]⟩, nameAndModel,
          ⟨k, [modelDir], [name]⟩)

/-- A serialized sequence of get_model calls against the shared cache.
get_model is a plain synchronous method with no await point, so under
the single-threaded asyncio event loop the calls of concurrently
connected sessions execute atomically in some arrival order; this
runner models any such order. -/
def runGetModels (env : Env) (args : Args) :
    St → List (String × Option String) →
    St × List (Except Err (String × Model)) × Effects
  | st, [] => (st, [], noEffects)
  | st, (lang, mn) :: rest =>
    match getModel env args st lang mn with
    | .error e =>
      let r := runGetModels env args st rest
      (r.1, .error e :: r.2.1, r.2.2)
    | .ok (st1, nm, eff1) =>
      let r := runGetModels env args st1 rest
      (r.1, .ok nm :: r.2.1, Effects.append eff1 r.2.2)

/-- A KaldiRecognizer: the model it was built on, its restricted
grammar (none for the open-ended constructor), and the converted
chunks fed to AcceptWaveform. -/
structure Recognizer where
  model : Model
  grammar : Option (List String)
  accepted : List String
deriving DecidableEq

/-- Per-connection fields of VoskEventHandler. -/
structure Session where
  language : Option String
  modelName : Option String
  recognizer : Option Recognizer
deriving DecidableEq

/-- Inbound wyoming events relevant to handle_event; other covers the
unexpected-event branch. -/
inductive Event where
  | describe
  | transcribe (language : Option String) (name : Option String)
  | audioStart
  | audioChunk (audio : String)
  | audioStop
  | other
deriving DecidableEq

/-- Outbound events written by handle_event. -/
inductive Out where
  | info
  | transcript (text : String)
deriving DecidableEq

/-- VoskEventHandler._load_recognizer (source lines 330-369): when
--limit-sentences is set and the language has a word database, build a
recognizer restricted to the cased word list, the unknown sentinel
appended first when --allow-unknown is set; otherwise open-ended. -/
def loadRecognizer (env : Env) (args : Args) (language : Option String)
    (modelName : Option String) (model : Model) : Except Err Recognizer :=
  if args.limitSentences then
    if strFalsy language then .error .assertionError
    else
      match env.loadSentences args.sentencesDir (language.getD "")
          args.databaseDir with
      | some langConfig =>
        if langConfig.databaseIsFile then
          let words := langConfig.words
          let casingFuncName := optKeyGet env.CASING_FOR_MODEL modelName
            (dictGetD args.casingForLanguage (language.getD "") _DEFAULT_CASING)
          let words :=
            if args.allowUnknown then
              words ++ [optKeyGet env.UNK_FOR_MODEL modelName _DEFAULT_UNK]
            else words
          match _CASING casingFuncName with
          | none => .error .keyError
          | some casingFunc => .ok ⟨model, some (words.map casingFunc), []⟩
        else .ok ⟨model, none, []⟩
      | none => .ok ⟨model, none, []⟩
  else .ok ⟨model, none, []⟩

/-- VoskEventHandler._has_unknown (source lines 394-397). -/
def hasUnknown (env : Env) (modelName : Option String) (text : String) : Bool :=
  let unkToken := optKeyGet env.UNK_FOR_MODEL modelName _DEFAULT_UNK
  text == unkToken || (pySplit text).contains unkToken

/-- VoskEventHandler._fix_transcript (source lines 371-392): with
unknown words allowed and the sentinel present, return the configured
unknown text or empty string; with no language config, return the text
unchanged; otherwise delegate to correct_sentence. -/
def fixTranscript (env : Env) (args : Args) (language : Option String)
    (modelName : Option String) (text : String) : Except Err String :=
  if strFalsy language then .error .assertionError
  else
    let langConfig :=
      env.loadSentences args.sentencesDir (language.getD "") args.databaseDir
    if args.allowUnknown && hasUnknown env modelName text then
      match langConfig with
      | some cfg => .ok (cfg.unknownText.getD "")
      | none => .ok ""
    else
      match langConfig with
      | none => .ok text
      | some cfg => .ok (env.correctSentence text cfg args.correctSentences)

/-- Successful outcome of one handle_event call: updated session
fields, events written, the returned continue flag, and the number of
KaldiRecognizer constructions performed. -/
structure StepOk where
  session : Session
  outs : List Out
  cont : Bool
  constructions : Nat
deriving DecidableEq

/-- VoskEventHandler.handle_event (source lines 268-325).  The first
component is the shared cache as left by the call (also on an
exception); an error result models an uncaught exception, which
terminates only this session's task. -/
def handleEvent (env : Env) (args : Args) (st : St) (s : Session)
    (e : Event) : St × Except Err StepOk :=
  match e with
  | .describe => (st, .ok ⟨s, [.info], true, 0⟩)
  | .transcribe lang name =>
    (st, .ok ⟨{ s with language := lang, modelName := name }, [], true, 0⟩)
  | .audioStart => (st, .ok ⟨s, [], true, 0⟩)
  | .audioChunk audio =>
    match s.recognizer with
    | none =>
      let language := pyOrOpt s.language args.language
      match getModel env args st language s.modelName with
      | .error err => (st, .error err)
      | .ok (st1, nameAndModel, _) =>
        let name := nameAndModel.1
        let model := nameAndModel.2
        match loadRecognizer env args (some language) (some name) model with
        | .error err => (st1, .error err)
        | .ok r =>
          let r := { r with accepted := r.accepted ++ [env.convert audio] }
          let s1 : Session := ⟨some language, some name, some r⟩
          (st1, .ok ⟨s1, [], true, 1⟩)
    | some r =>
      let r1 := { r with accepted := r.accepted ++ [env.convert audio] }
      let s1 := { s with recognizer := some r1 }
      (st, .ok ⟨s1, [], true, 0⟩)
  | .audioStop =>
    match s.recognizer with
    | none => (st, .error .assertionError)
    | some r =>
      let text := env.alphaDigit (env.decode r.accepted r.grammar r.model)
        s.language
      match (if args.correctSentences.isSome then
          fixTranscript env args s.language s.modelName text
        else .ok text) with
      | .error err => (st, .error err)
      | .ok text1 => (st, .ok ⟨s, [.transcript text1], false, 0⟩)
  | .other => (st, .ok ⟨s, [], true, 0⟩)

/-- Outcome of feeding a whole event sequence to one session: final
shared cache, events written, recognizer constructions, and whether
the session task died on an exception. -/
structure RunResult where
  st : St
  outs : List Out
  constructions : Nat
  failed : Bool
deriving DecidableEq

/-- The per-session loop of wyoming's server: feed events in arrival
order until handle_event returns False or raises; an exception
terminates only this session's task, later events are not processed. -/
def runEvents (env : Env) (args : Args) :
    St → Session → List Event → RunResult
  | st, _, [] => ⟨st, [], 0, false⟩
  | st, s, e :: rest =>
    match handleEvent env args st s e with
    | (st1, .error _) => ⟨st1, [], 0, true⟩
    | (st1, .ok step) =>
      if step.cont then
        let r := runEvents env args st1 step.session rest
        ⟨r.st, step.outs ++ r.outs, step.constructions + r.constructions,
          r.failed⟩
      else ⟨st1, step.outs, step.constructions, false⟩

/-- Number of Transcript events in an output list. -/
def countTranscripts (outs : List Out) : Nat :=
  outs.countP (fun o => match o with | .transcript _ => true | _ => false)

/-- A concrete collaborator environment for exercising the definitions
on closed inputs. -/
def envW : Env :=
  { MODELS := fun l =>
      if l = "en" then some ["model-a", "model-b", "model-c"] else none
    diskHas := fun _ _ => false
    downloadPath := fun _ n d => d ++ "/" ++ n
    CASING_FOR_MODEL := fun _ => none
    UNK_FOR_MODEL := fun _ => none
    loadSentences := fun _ l _ =>
      if l = "en" then some ⟨true, ["yes", "no"], some "unknown"⟩ else none
    decode := fun _ _ _ => "yes"
    alphaDigit := fun t _ => t
    correctSentence := fun t _ _ => t
    convert := fun a => a }

/-- The concrete environment with an upper-casing override for
model-a in CASING_FOR_MODEL. -/
def envU : Env :=
  { envW with CASING_FOR_MODEL := fun n =>
      if n = "model-a" then some "upper" else none }

/-- A concrete argument namespace for exercising the definitions on
closed inputs. -/
def argsW : Args :=
  { dataDir := ["/data"]
    downloadDir := "/data"
    language := "en"
    modelForLanguage := []
    casingForLanguage := []
    modelIndex := 0
    sentencesDir := some "/sent"
    databaseDir := some "/sent"
    correctSentences := some 0
    limitSentences := true
    allowUnknown := true }

instance {ε : Type} {α : Type} [DecidableEq ε] [DecidableEq α] :
    DecidableEq (Except ε α) := fun x y =>
  match x, y with
  | .error a, .error b =>
    if h : a = b then .isTrue (by rw [h]) else .isFalse (by simp [h])
  | .error _, .ok _ => .isFalse (by simp)
  | .ok _, .error _ => .isFalse (by simp)
  | .ok a, .ok b =>
    if h : a = b then .isTrue (by rw [h]) else .isFalse (by simp [h])

section Lemmas

theorem cacheGet_append_self (l : List (String × (String × Model)))
    (k : String) (v : String × Model) (h : cacheGet l k = none) :
    cacheGet (l ++ [(k, v)]) k = some v := by
  induction l with
  | nil => simp [cacheGet, List.find?]
  | cons p t ih =>
    rcases hp : (p.1 == k) with _ | _
    · simp only [cacheGet, List.cons_append] at h ⊢
      rw [List.find?_cons_of_neg _ (by simp [hp])] at h ⊢
      exact ih h
    · rw [cacheGet, List.find?_cons_of_pos _ (by simp [hp])] at h
      simp at h

theorem getModel_warm (env : Env) (args : Args) (st : St) (language : String)
    (modelName : Option String) (N : String) (v : String × Model)
    (hres : resolveName env args language modelName = .ok N)
    (hcache : cacheGet st.models N = some v) :
    getModel env args st language modelName = .ok (st, v, noEffects) := by
  simp [getModel, hres, hcache]

theorem getModel_ok_cached (env : Env) (args : Args) (st : St)
    (language : String) (modelName : Option String) (st1 : St)
    (res : String × Model) (eff : Effects)
    (h : getModel env args st language modelName = .ok (st1, res, eff)) :
    ∃ N, resolveName env args language modelName = .ok N ∧
      cacheGet st1.models N = some res := by
  unfold getModel at h
  split at h
  · exact absurd h (by simp)
  rename_i N hres
  refine ⟨N, hres, ?_⟩
  split at h
  · rename_i v hcache
    simp only [Except.ok.injEq, Prod.mk.injEq] at h
    obtain ⟨hst, hv, _⟩ := h
    subst hst; subst hv
    exact hcache
  rename_i hcache
  split at h <;>
    · rename_i k hdisk
      simp only [Except.ok.injEq, Prod.mk.injEq] at h
      obtain ⟨hst, hv, _⟩ := h
      subst hst; subst hv
      exact cacheGet_append_self _ _ _ hcache

theorem findOnDisk_all_miss (env : Env) (ds : List String) (N : String)
    (hdisk : ∀ d ∈ ds, env.diskHas d N = false) :
    findOnDisk env ds N = (none, ds.length) := by
  induction ds with
  | nil => rfl
  | cons d rest ih =>
    have hd : env.diskHas d N = false := hdisk d (by simp)
    have hr := ih (fun x hx => hdisk x (List.mem_cons_of_mem d hx))
    simp [findOnDisk, hd, hr]

theorem getModel_cold_download (env : Env) (args : Args) (st : St)
    (language : String) (modelName : Option String) (N : String)
    (hres : resolveName env args language modelName = .ok N)
    (hcache : cacheGet st.models N = none)
    (hdisk : ∀ d ∈ args.dataDir, env.diskHas d N = false) :
    getModel env args st language modelName =
      .ok (⟨st.models ++
          [(N, (N, ⟨env.downloadPath language N args.downloadDir⟩))]⟩,
        (N, ⟨env.downloadPath language N args.downloadDir⟩),
        ⟨args.dataDir.length,
          [env.downloadPath language N args.downloadDir], [N]⟩) := by
  have hfind := findOnDisk_all_miss env args.dataDir N hdisk
  simp [getModel, hres, hcache, hfind]

theorem pyGet_natCast (xs : List String) (j : Nat) (h : j < xs.length) :
    pyGet xs (j : Int) = some (xs.getD j "") := by
  unfold pyGet
  rw [if_pos (Int.natCast_nonneg j)]
  have ht : ((j : Int)).toNat = j := by omega
  rw [ht, List.getD_eq_get?, List.get?_eq_get h]
  rfl

/-- C4: a second sequential resolve of the same (language, modelName)
returns the identical (name, Model) value the first call returned and
leaves the cache unchanged, with no disk probe, no Model construction
and no download. -/
theorem c4_idempotent_cache (env : Env) (args : Args) (st : St)
    (language : String) (modelName : Option String) (st1 : St)
    (res : String × Model) (eff : Effects)
    (h : getModel env args st language modelName = .ok (st1, res, eff)) :
    getModel env args st1 language modelName = .ok (st1, res, noEffects) := by
  obtain ⟨N, hres, hcache⟩ :=
    getModel_ok_cached env args st language modelName st1 res eff h
  exact getModel_warm env args st1 language modelName N res hres hcache

theorem c4_witness :
    getModel envW argsW ⟨[("model-a", ("model-a", ⟨"/data/model-a"⟩))]⟩
        "en" none =
      .ok (⟨[("model-a", ("model-a", ⟨"/data/model-a"⟩))]⟩,
        ("model-a", ⟨"/data/model-a"⟩), noEffects) :=
  c4_idempotent_cache envW argsW ⟨[]⟩ "en" none
    ⟨[("model-a", ("model-a", ⟨"/data/model-a"⟩))]⟩
    ("model-a", ⟨"/data/model-a"⟩) ⟨1, ["/data/model-a"], ["model-a"]⟩
    (by decide)

/-- C3: with no per-language override and no requested model name, a
configured model index k picks catalog entry min(k, n-1) for a
language whose catalog has n entries. -/
theorem c3_catalog_index_clamp (env : Env) (args : Args) (language : String)
    (catalog : List String) (k : Nat)
    (hov : dictGet args.modelForLanguage language = none)
    (hcat : env.MODELS language = some catalog)
    (hne : catalog ≠ [])
    (hk : args.modelIndex = (k : Int)) :
    resolveName env args language none =
      .ok (catalog.getD (min k (catalog.length - 1)) "") := by
  have hlen : 0 < catalog.length := List.length_pos.mpr hne
  have hmin : min args.modelIndex ((catalog.length : Int) - 1) =
      ((min k (catalog.length - 1) : Nat) : Int) := by
    rw [hk]; omega
  have hidx : min k (catalog.length - 1) < catalog.length := by omega
  simp only [resolveName, hov, strFalsy, hcat]
  rw [hmin, pyGet_natCast catalog _ hidx]
  simp

theorem c3_witness :
    resolveName envW { argsW with modelIndex := 5 } "en" none =
      .ok (["model-a", "model-b", "model-c"].getD
        (min 5 (["model-a", "model-b", "model-c"].length - 1)) "") :=
  c3_catalog_index_clamp envW { argsW with modelIndex := 5 } "en"
    ["model-a", "model-b", "model-c"] 5 (by decide) (by decide) (by decide)
    (by decide)

/-- C10: a negative configured model index k with -n <= k < 0 selects
catalog entry n + k (Python end-relative indexing), not entry 0 and
not a failure. -/
theorem c10_negative_index (env : Env) (args : Args) (language : String)
    (catalog : List String)
    (hov : dictGet args.modelForLanguage language = none)
    (hcat : env.MODELS language = some catalog)
    (hneg : args.modelIndex < 0)
    (hlb : -(catalog.length : Int) ≤ args.modelIndex) :
    resolveName env args language none =
      .ok (catalog.getD ((catalog.length : Int) + args.modelIndex).toNat "") := by
  have hlen : 0 < catalog.length := by omega
  have hmin : min args.modelIndex ((catalog.length : Int) - 1) =
      args.modelIndex := by omega
  have hidx : ((catalog.length : Int) + args.modelIndex).toNat <
      catalog.length := by omega
  have hpy : pyGet catalog args.modelIndex =
      some (catalog.getD
        ((catalog.length : Int) + args.modelIndex).toNat "") := by
    unfold pyGet
    rw [if_neg (by omega), if_pos (by omega),
      List.getD_eq_get?, List.get?_eq_get hidx]
    rfl
  simp only [resolveName, hov, strFalsy, hcat]
  rw [hmin, hpy]
  simp

theorem c10_witness :
    resolveName envW { argsW with modelIndex := -1 } "en" none =
      .ok (["model-a", "model-b", "model-c"].getD
        ((["model-a", "model-b", "model-c"].length : Int) + (-1)).toNat "") ∧
    (["model-a", "model-b", "model-c"].getD
        ((["model-a", "model-b", "model-c"].length : Int) + (-1)).toNat "") ≠
      "model-a" :=
  ⟨c10_negative_index envW { argsW with modelIndex := -1 } "en"
    ["model-a", "model-b", "model-c"] (by decide) (by decide) (by decide)
    (by decide), by decide⟩

theorem noEffects_append (e : Effects) : Effects.append noEffects e = e := by
  simp [Effects.append, noEffects]

theorem runGetModels_warm (env : Env) (args : Args) (N : String)
    (v : String × Model) (cs : List (String × Option String)) (st : St)
    (hcache : cacheGet st.models N = some v)
    (hres : ∀ c ∈ cs, resolveName env args c.1 c.2 = .ok N) :
    runGetModels env args st cs =
      (st, cs.map (fun _ => .ok v), noEffects) := by
  induction cs with
  | nil => rfl
  | cons c rest ih =>
    rcases c with ⟨lang, mn⟩
    have h1 := getModel_warm env args st lang mn N v
      (hres (lang, mn) (by simp)) hcache
    have h2 := ih (fun x hx => hres x (List.mem_cons_of_mem _ hx))
    simp [runGetModels, h1, h2, noEffects_append]

/-- C1: any serialized order of get_model calls from racing sessions
that all resolve to the same cold model name (absent from the cache
and from every data dir) invokes download_model exactly once and
constructs exactly one Model; every caller receives the same
(name, Model) pair.  The serialized model is faithful: get_model has
no await point, so under the single-threaded event loop concurrent
sessions' calls execute atomically in some order. -/
theorem c1_single_flight (env : Env) (args : Args) (st : St) (N : String)
    (calls : List (String × Option String))
    (hcold : cacheGet st.models N = none)
    (hres : ∀ c ∈ calls, resolveName env args c.1 c.2 = .ok N)
    (hdisk : ∀ d ∈ args.dataDir, env.diskHas d N = false)
    (hne : calls ≠ []) :
    ∃ m : Model,
      (runGetModels env args st calls).2.1 =
        calls.map (fun _ => .ok (N, m)) ∧
      (runGetModels env args st calls).2.2.downloads = [N] ∧
      (runGetModels env args st calls).2.2.loads.length = 1 := by
  rcases calls with _ | ⟨⟨lang, mn⟩, rest⟩
  · exact absurd rfl hne
  refine ⟨⟨env.downloadPath lang N args.downloadDir⟩, ?_⟩
  have h1 := getModel_cold_download env args st lang mn N
    (hres (lang, mn) (by simp)) hcold hdisk
  have hcache1 : cacheGet (st.models ++
      [(N, (N, ⟨env.downloadPath lang N args.downloadDir⟩))]) N =
      some (N, ⟨env.downloadPath lang N args.downloadDir⟩) :=
    cacheGet_append_self _ _ _ hcold
  have h2 := runGetModels_warm env args N
    (N, ⟨env.downloadPath lang N args.downloadDir⟩) rest
    ⟨st.models ++ [(N, (N, ⟨env.downloadPath lang N args.downloadDir⟩))]⟩
    hcache1 (fun x hx => hres x (List.mem_cons_of_mem _ hx))
  simp [runGetModels, h1, h2, Effects.append, noEffects]

theorem c1_witness :
    ∃ m : Model,
      (runGetModels envW argsW ⟨[]⟩ [("en", none), ("en", none)]).2.1 =
        [("en", (none : Option String)), ("en", none)].map
          (fun _ => .ok ("model-a", m)) ∧
      (runGetModels envW argsW ⟨[]⟩
        [("en", none), ("en", none)]).2.2.downloads = ["model-a"] ∧
      (runGetModels envW argsW ⟨[]⟩
        [("en", none), ("en", none)]).2.2.loads.length = 1 :=
  c1_single_flight envW argsW ⟨[]⟩ "model-a" [("en", none), ("en", none)]
    (by decide) (by decide) (by decide) (by decide)

/-- C7: resolving a language with no catalog entry and no override
fails with KeyError: the requesting call errors, the shared cache and
the results of every other call are unchanged, and the requesting
session's event loop stops with a failure signal, emitting nothing and
processing no further events. -/
theorem c7_unknown_language (env : Env) (args : Args) (st : St)
    (language : String)
    (hov : dictGet args.modelForLanguage language = none)
    (hcat : env.MODELS language = none) :
    getModel env args st language none = .error .keyError ∧
    (∀ rest : List (String × Option String),
      runGetModels env args st ((language, none) :: rest) =
        ((runGetModels env args st rest).1,
          .error Err.keyError :: (runGetModels env args st rest).2.1,
          (runGetModels env args st rest).2.2)) ∧
    (∀ (s : Session) (a : String) (evs : List Event),
      s.language = some language → language ≠ "" → s.modelName = none →
      s.recognizer = none →
      runEvents env args st s (Event.audioChunk a :: evs) =
        ⟨st, [], 0, true⟩) := by
  have hres : resolveName env args language none = .error .keyError := by
    simp [resolveName, hov, strFalsy, hcat]
  have hgm : getModel env args st language none = .error .keyError := by
    simp [getModel, hres]
  refine ⟨hgm, ?_, ?_⟩
  · intro rest
    simp [runGetModels, hgm]
  · intro s a evs hl hne hmn hrec
    have hpy : pyOrOpt s.language args.language = language := by
      rw [hl]; simp [pyOrOpt, hne]
    have hhe : handleEvent env args st s (Event.audioChunk a) =
        (st, .error .keyError) := by
      simp [handleEvent, hrec, hpy, hmn, hgm]
    simp [runEvents, hhe]

theorem c7_witness :
    getModel envW argsW ⟨[]⟩ "xx" none = .error Err.keyError ∧
    runEvents envW argsW ⟨[]⟩ ⟨some "xx", none, none⟩
      [Event.audioChunk "a", Event.audioStop] = ⟨⟨[]⟩, [], 0, true⟩ :=
  ⟨(c7_unknown_language envW argsW ⟨[]⟩ "xx" (by decide) (by decide)).1,
    (c7_unknown_language envW argsW ⟨[]⟩ "xx" (by decide) (by decide)).2.2
      ⟨some "xx", none, none⟩ "a" [Event.audioStop] rfl (by decide) rfl rfl⟩

/-- C9: the casing function applied to a vocabulary-limited session's
word list is resolved in priority order: the model-specific
CASING_FOR_MODEL override wins if present, else the per-language
casing_for_language override, else the default casefold. -/
theorem c9_casing_priority (env : Env) (args : Args) (lang name : String)
    (model : Model) (cfg : LangConfig)
    (hlim : args.limitSentences = true)
    (hlang : lang ≠ "")
    (hload : env.loadSentences args.sentencesDir lang args.databaseDir =
      some cfg)
    (hdb : cfg.databaseIsFile = true) :
    (∀ cn f, env.CASING_FOR_MODEL name = some cn → _CASING cn = some f →
      loadRecognizer env args (some lang) (some name) model =
        .ok ⟨model, some ((if args.allowUnknown then
            cfg.words ++ [optKeyGet env.UNK_FOR_MODEL (some name) _DEFAULT_UNK]
          else cfg.words).map f), []⟩) ∧
    (∀ cn f, env.CASING_FOR_MODEL name = none →
      dictGet args.casingForLanguage lang = some cn → _CASING cn = some f →
      loadRecognizer env args (some lang) (some name) model =
        .ok ⟨model, some ((if args.allowUnknown then
            cfg.words ++ [optKeyGet env.UNK_FOR_MODEL (some name) _DEFAULT_UNK]
          else cfg.words).map f), []⟩) ∧
    (env.CASING_FOR_MODEL name = none →
      dictGet args.casingForLanguage lang = none →
      loadRecognizer env args (some lang) (some name) model =
        .ok ⟨model, some ((if args.allowUnknown then
            cfg.words ++ [optKeyGet env.UNK_FOR_MODEL (some name) _DEFAULT_UNK]
          else cfg.words).map pyCasefold), []⟩) := by
  refine ⟨?_, ?_, ?_⟩
  · intro cn f hcn hf
    simp [loadRecognizer, hlim, strFalsy, hlang, hload, hdb, optKeyGet,
      dictGetD, hcn, hf]
  · intro cn f hcn hcl hf
    simp [loadRecognizer, hlim, strFalsy, hlang, hload, hdb, optKeyGet,
      dictGetD, hcn, hcl, hf]
  · intro hcn hcl
    simp [loadRecognizer, hlim, strFalsy, hlang, hload, hdb, optKeyGet,
      dictGetD, hcn, hcl, _CASING, _DEFAULT_CASING]

theorem c9_witness :
    loadRecognizer envU argsW (some "en") (some "model-a") ⟨"p"⟩ =
      .ok ⟨⟨"p"⟩, some ((if argsW.allowUnknown then
          ["yes", "no"] ++
            [optKeyGet envU.UNK_FOR_MODEL (some "model-a") _DEFAULT_UNK]
        else ["yes", "no"]).map pyUpper), []⟩ :=
  (c9_casing_priority envU argsW "en" "model-a" ⟨"p"⟩
    ⟨true, ["yes", "no"], some "unknown"⟩ rfl (by decide) (by decide)
    rfl).1 "upper" pyUpper rfl rfl

/-- C2 as stated fails on the code: the sentinel is appended to the
raw word list before the casing pass, so the casing function is
applied to it as well.  With the upper casing override and the default
sentinel [unk], the built word list is ["YES", "NO", "[UNK]"], which
contains the configured sentinel zero times, not exactly once. -/
theorem c2_counterexample :
    loadRecognizer envU argsW (some "en") (some "model-a") ⟨"p"⟩ =
      .ok ⟨⟨"p"⟩, some ["YES", "NO", "[UNK]"], []⟩ ∧
    optKeyGet envU.UNK_FOR_MODEL (some "model-a") _DEFAULT_UNK = "[unk]" ∧
    (["YES", "NO", "[UNK]"].count "[unk]" = 0) ∧
    argsW.allowUnknown = true :=
  ⟨by decide, by decide, by decide, rfl⟩

/-- C2 amended: with unknown words allowed, the word list passed to
the decoder is the casing function applied to the real words, followed
by the cased sentinel: the sentinel is appended exactly once, as the
last element, before the casing pass, so casing transforms it too. -/
theorem c2_sentinel_appended (env : Env) (args : Args) (lang name : String)
    (model : Model) (cfg : LangConfig) (f : String → String)
    (hlim : args.limitSentences = true)
    (hau : args.allowUnknown = true)
    (hlang : lang ≠ "")
    (hload : env.loadSentences args.sentencesDir lang args.databaseDir =
      some cfg)
    (hdb : cfg.databaseIsFile = true)
    (hf : _CASING (optKeyGet env.CASING_FOR_MODEL (some name)
      (dictGetD args.casingForLanguage lang _DEFAULT_CASING)) = some f) :
    loadRecognizer env args (some lang) (some name) model =
      .ok ⟨model, some (cfg.words.map f ++
        [f (optKeyGet env.UNK_FOR_MODEL (some name) _DEFAULT_UNK)]), []⟩ := by
  simp [loadRecognizer, hlim, hau, strFalsy, hlang, hload, hdb, hf]

theorem c2_sentinel_appended_witness :
    loadRecognizer envU argsW (some "en") (some "model-a") ⟨"p"⟩ =
      .ok ⟨⟨"p"⟩, some (["yes", "no"].map pyUpper ++
        [pyUpper (optKeyGet envU.UNK_FOR_MODEL (some "model-a")
          _DEFAULT_UNK)]), []⟩ :=
  c2_sentinel_appended envU argsW "en" "model-a" ⟨"p"⟩
    ⟨true, ["yes", "no"], some "unknown"⟩ pyUpper rfl rfl (by decide)
    (by decide) rfl rfl

/-- C5: with unknown words allowed and the sentinel present in the raw
transcript (equal to it, or among its whitespace-separated tokens),
_fix_transcript returns the configured unknown text (empty string when
none is configured), whatever the correction collaborator and the
score cutoff are: the fuzzy corrector is never consulted. -/
theorem c5_unknown_short_circuit (env : Env) (args : Args)
    (correct : String → LangConfig → Option Score → String)
    (cutoff : Option Score) (lang : String) (mn : Option String)
    (text : String)
    (hlang : lang ≠ "")
    (hau : args.allowUnknown = true)
    (hunk : text = optKeyGet env.UNK_FOR_MODEL mn _DEFAULT_UNK ∨
      optKeyGet env.UNK_FOR_MODEL mn _DEFAULT_UNK ∈ pySplit text) :
    fixTranscript { env with correctSentence := correct }
        { args with correctSentences := cutoff } (some lang) mn text =
      .ok (match env.loadSentences args.sentencesDir lang args.databaseDir with
        | some cfg => cfg.unknownText.getD ""
        | none => "") := by
  have hhu : hasUnknown { env with correctSentence := correct } mn text =
      true := by
    rcases hunk with h | h
    · simp [hasUnknown, h]
    · simp [hasUnknown, h]
  simp only [fixTranscript, strFalsy, hau, hhu, Option.getD_some,
    Bool.and_self, if_true]
  rcases hcfg : env.loadSentences args.sentencesDir lang args.databaseDir
    with _ | cfg <;> simp [strFalsy, hlang, hcfg, hau, hhu]

theorem c5_witness :
    fixTranscript { envW with correctSentence := fun t _ _ => t ++ "X" }
        { argsW with correctSentences := some 7 } (some "en") none "[unk]" =
      .ok (match envW.loadSentences argsW.sentencesDir "en"
          argsW.databaseDir with
        | some cfg => cfg.unknownText.getD ""
        | none => "") :=
  c5_unknown_short_circuit envW argsW (fun t _ _ => t ++ "X") (some 7)
    "en" none "[unk]" (by decide) rfl (Or.inl (by decide))

theorem handleEvent_ok_inv (env : Env) (args : Args) (st : St) (s : Session)
    (e : Event) (step : StepOk)
    (h : (handleEvent env args st s e).2 = .ok step) :
    (step.cont = true ∧ countTranscripts step.outs = 0 ∨
      step.cont = false ∧ e = Event.audioStop ∧
        ∃ t, step.outs = [Out.transcript t]) ∧
    (step.constructions = 0 ∨ step.constructions = 1 ∧
      s.recognizer = none ∧ ∃ a, e = Event.audioChunk a) ∧
    (s.recognizer.isSome = true →
      step.constructions = 0 ∧ step.session.recognizer.isSome = true) ∧
    (step.constructions = 1 → step.session.recognizer.isSome = true) := by
  cases e with
  | describe =>
    simp [handleEvent] at h
    subst h
    simp [countTranscripts]
  | transcribe lang name =>
    simp [handleEvent] at h
    subst h
    simp [countTranscripts]
  | audioStart =>
    simp [handleEvent] at h
    subst h
    simp [countTranscripts]
  | other =>
    simp [handleEvent] at h
    subst h
    simp [countTranscripts]
  | audioChunk a =>
    cases hrec : s.recognizer with
    | none =>
      simp only [handleEvent, hrec] at h
      split at h
      · simp at h
      · split at h
        · simp at h
        · simp at h
          subst h
          simp [countTranscripts, hrec]
    | some r =>
      simp [handleEvent, hrec] at h
      subst h
      simp [countTranscripts, hrec]
  | audioStop =>
    cases hrec : s.recognizer with
    | none => simp [handleEvent, hrec] at h
    | some r =>
      simp only [handleEvent, hrec] at h
      split at h
      · simp at h
      · simp at h
        subst h
        simp [countTranscripts, hrec]

theorem handleEvent_measure (env : Env) (args : Args) (st : St) (s : Session)
    (e : Event) (step : StepOk)
    (h : (handleEvent env args st s e).2 = .ok step) :
    step.constructions + (if step.session.recognizer.isSome then 0 else 1) ≤
      (if s.recognizer.isSome then 0 else 1) := by
  obtain ⟨_, h2, h3, h4⟩ := handleEvent_ok_inv env args st s e step h
  rcases hso : s.recognizer.isSome with _ | _
  · rcases h2 with hc | ⟨hc, _, _⟩
    · rw [hc]
      simp only [Nat.zero_add]
      split <;> simp
    · rw [hc, h4 hc]
      simp
  · obtain ⟨hc, hsess⟩ := h3 hso
    rw [hc, hsess]
    simp

theorem handleEvent_nochunk (env : Env) (args : Args) (st : St) (s : Session)
    (e : Event) (hne : ∀ a, e ≠ Event.audioChunk a) :
    (handleEvent env args st s e).1 = st ∧
    ∀ step, (handleEvent env args st s e).2 = .ok step →
      step.constructions = 0 := by
  cases e with
  | describe => exact ⟨rfl, by intro step h; simp [handleEvent] at h; subst h; rfl⟩
  | transcribe lang name =>
    exact ⟨rfl, by intro step h; simp [handleEvent] at h; subst h; rfl⟩
  | audioStart =>
    exact ⟨rfl, by intro step h; simp [handleEvent] at h; subst h; rfl⟩
  | other =>
    exact ⟨rfl, by intro step h; simp [handleEvent] at h; subst h; rfl⟩
  | audioChunk a => exact absurd rfl (hne a)
  | audioStop =>
    cases hrec : s.recognizer with
    | none =>
      constructor
      · simp [handleEvent, hrec]
      · intro step h
        simp [handleEvent, hrec] at h
    | some r =>
      constructor
      · simp only [handleEvent, hrec]
        split <;> rfl
      · intro step h
        simp only [handleEvent, hrec] at h
        split at h
        · simp at h
        · simp at h
          subst h
          rfl

theorem runEvents_transcripts_le_one (env : Env) (args : Args) :
    ∀ (evs : List Event) (st : St) (s : Session),
    countTranscripts (runEvents env args st s evs).outs ≤ 1 := by
  intro evs
  induction evs with
  | nil =>
    intro st s
    simp [runEvents, countTranscripts]
  | cons e rest ih =>
    intro st s
    rcases hhe : handleEvent env args st s e with ⟨st1, res⟩
    rcases res with err | step
    · simp [runEvents, hhe, countTranscripts]
    · have hshape := (handleEvent_ok_inv env args st s e step (by rw [hhe])).1
      rcases hc : step.cont with _ | _
      · rcases hshape with ⟨hct, _⟩ | ⟨_, _, t, houts⟩
        · rw [hct] at hc; cases hc
        · simp [runEvents, hhe, hc, houts, countTranscripts]
      · rcases hshape with ⟨_, hcnt⟩ | ⟨hcf, _⟩
        · have hih := ih st1 step.session
          have hout : (runEvents env args st s (e :: rest)).outs =
              step.outs ++ (runEvents env args st1 step.session rest).outs := by
            simp [runEvents, hhe, hc]
          rw [hout]
          unfold countTranscripts at hcnt hih ⊢
          rw [List.countP_append]
          omega
        · rw [hcf] at hc; cases hc

theorem runEvents_halt_absorb (env : Env) (args : Args) :
    ∀ (evs : List Event) (st : St) (s : Session) (suffix : List Event),
    countTranscripts (runEvents env args st s evs).outs = 1 →
    runEvents env args st s (evs ++ suffix) = runEvents env args st s evs := by
  intro evs
  induction evs with
  | nil =>
    intro st s suffix h
    simp [runEvents, countTranscripts] at h
  | cons e rest ih =>
    intro st s suffix h
    rcases hhe : handleEvent env args st s e with ⟨st1, res⟩
    rcases res with err | step
    · simp [runEvents, hhe, countTranscripts] at h
    · rcases hc : step.cont with _ | _
      · simp only [List.cons_append]
        simp [runEvents, hhe, hc]
      · have hcnt : countTranscripts step.outs = 0 := by
          rcases (handleEvent_ok_inv env args st s e step (by rw [hhe])).1 with
            ⟨_, h0⟩ | ⟨hcf, _⟩
          · exact h0
          · rw [hcf] at hc; cases hc
        have hout : (runEvents env args st s (e :: rest)).outs =
            step.outs ++ (runEvents env args st1 step.session rest).outs := by
          simp [runEvents, hhe, hc]
        rw [hout] at h
        unfold countTranscripts at h hcnt
        rw [List.countP_append, hcnt, Nat.zero_add] at h
        have hr := ih st1 step.session suffix h
        simp only [List.cons_append]
        simp [runEvents, hhe, hc, hr]

/-- C6: at most one Transcript event is ever emitted to a session; a
Transcript arises only from an AudioStop step, which also returns
False and stops the loop; and once a run has emitted its Transcript,
appending further events (more chunks, another stop) leaves the run
unchanged, so no second Transcript is produced. -/
theorem c6_session_terminality (env : Env) (args : Args) :
    (∀ (st : St) (s : Session) (evs : List Event),
      countTranscripts (runEvents env args st s evs).outs ≤ 1) ∧
    (∀ (st : St) (s : Session) (evs suffix : List Event),
      countTranscripts (runEvents env args st s evs).outs = 1 →
      runEvents env args st s (evs ++ suffix) = runEvents env args st s evs) ∧
    (∀ (st : St) (s : Session) (e : Event) (step : StepOk),
      (handleEvent env args st s e).2 = .ok step →
      countTranscripts step.outs ≠ 0 →
      e = Event.audioStop ∧ step.cont = false) := by
  refine ⟨fun st s evs => runEvents_transcripts_le_one env args evs st s,
    fun st s evs suffix h => runEvents_halt_absorb env args evs st s suffix h,
    ?_⟩
  intro st s e step h hne
  rcases (handleEvent_ok_inv env args st s e step h).1 with
    ⟨_, h0⟩ | ⟨hcf, hstop, _⟩
  · exact absurd h0 hne
  · exact ⟨hstop, hcf⟩

theorem c6_witness :
    countTranscripts (runEvents envW argsW ⟨[]⟩ ⟨none, none, none⟩
      [Event.transcribe (some "en") none, Event.audioStart,
        Event.audioChunk "x", Event.audioStop]).outs = 1 ∧
    runEvents envW argsW ⟨[]⟩ ⟨none, none, none⟩
        ([Event.transcribe (some "en") none, Event.audioStart,
          Event.audioChunk "x", Event.audioStop] ++
          [Event.audioChunk "y", Event.audioStop]) =
      runEvents envW argsW ⟨[]⟩ ⟨none, none, none⟩
        [Event.transcribe (some "en") none, Event.audioStart,
          Event.audioChunk "x", Event.audioStop] :=
  ⟨by decide, (c6_session_terminality envW argsW).2.1 ⟨[]⟩ ⟨none, none, none⟩
    [Event.transcribe (some "en") none, Event.audioStart,
      Event.audioChunk "x", Event.audioStop]
    [Event.audioChunk "y", Event.audioStop] (by decide)⟩

theorem runEvents_constructions_le (env : Env) (args : Args) :
    ∀ (evs : List Event) (st : St) (s : Session),
    (runEvents env args st s evs).constructions ≤
      (if s.recognizer.isSome then 0 else 1) := by
  intro evs
  induction evs with
  | nil =>
    intro st s
    simp [runEvents]
  | cons e rest ih =>
    intro st s
    rcases hhe : handleEvent env args st s e with ⟨st1, res⟩
    rcases res with err | step
    · simp [runEvents, hhe]
    · have hm := handleEvent_measure env args st s e step (by rw [hhe])
      rcases hc : step.cont with _ | _
      · have hcon : (runEvents env args st s (e :: rest)).constructions =
            step.constructions := by
          simp [runEvents, hhe, hc]
        rw [hcon]
        exact le_trans (Nat.le_add_right _ _) hm
      · have hih := ih st1 step.session
        have hcon : (runEvents env args st s (e :: rest)).constructions =
            step.constructions +
              (runEvents env args st1 step.session rest).constructions := by
          simp [runEvents, hhe, hc]
        rw [hcon]
        exact le_trans (Nat.add_le_add_left hih _) hm

theorem runEvents_nochunk (env : Env) (args : Args) :
    ∀ (evs : List Event) (st : St) (s : Session),
    (∀ e ∈ evs, ∀ a, e ≠ Event.audioChunk a) →
    (runEvents env args st s evs).constructions = 0 ∧
      (runEvents env args st s evs).st = st := by
  intro evs
  induction evs with
  | nil =>
    intro st s _
    exact ⟨rfl, rfl⟩
  | cons e rest ih =>
    intro st s hno
    obtain ⟨hst, hcon⟩ := handleEvent_nochunk env args st s e
      (hno e (by simp))
    rcases hhe : handleEvent env args st s e with ⟨st1, res⟩
    have hst1 : st1 = st := by rw [← hst, hhe]
    rcases res with err | step
    · subst hst1
      simp [runEvents, hhe]
    · have hc0 : step.constructions = 0 := hcon step (by rw [hhe])
      obtain ⟨hr1, hr2⟩ := ih st1 step.session
        (fun x hx => hno x (List.mem_cons_of_mem _ hx))
      rcases hc : step.cont with _ | _
      · subst hst1
        simp [runEvents, hhe, hc, hc0]
      · subst hst1
        simp [runEvents, hhe, hc, hc0, hr1, hr2]

/-- C8: a session whose recognizer is unset constructs at most one
KaldiRecognizer over its whole event sequence; a session that sees no
AudioChunk (for example one that only Describes) constructs none and
leaves the shared model cache untouched; and a construction can only
happen while processing an AudioChunk with the recognizer still
unset, never at Transcribe time. -/
theorem c8_lazy_single_construction (env : Env) (args : Args) :
    (∀ (st : St) (s : Session) (evs : List Event), s.recognizer = none →
      (runEvents env args st s evs).constructions ≤ 1) ∧
    (∀ (st : St) (s : Session) (evs : List Event),
      (∀ e ∈ evs, ∀ a, e ≠ Event.audioChunk a) →
      (runEvents env args st s evs).constructions = 0 ∧
        (runEvents env args st s evs).st = st) ∧
    (∀ (st : St) (s : Session) (e : Event) (step : StepOk),
      (handleEvent env args st s e).2 = .ok step →
      step.constructions ≠ 0 →
      s.recognizer = none ∧ ∃ a, e = Event.audioChunk a) := by
  refine ⟨?_, fun st s evs hno => runEvents_nochunk env args evs st s hno, ?_⟩
  · intro st s evs hrec
    have h := runEvents_constructions_le env args evs st s
    rw [hrec] at h
    simpa using h
  · intro st s e step h hne
    rcases (handleEvent_ok_inv env args st s e step h).2.1 with
      h0 | ⟨_, hr, ha⟩
    · exact absurd h0 hne
    · exact ⟨hr, ha⟩

theorem c8_witness :
    (runEvents envW argsW ⟨[]⟩ ⟨none, none, none⟩
      [Event.audioChunk "x", Event.audioChunk "y",
        Event.describe]).constructions ≤ 1 ∧
    ((runEvents envW argsW ⟨[]⟩ ⟨none, none, none⟩
      [Event.describe, Event.transcribe (some "en") none,
        Event.audioStart]).constructions = 0 ∧
      (runEvents envW argsW ⟨[]⟩ ⟨none, none, none⟩
        [Event.describe, Event.transcribe (some "en") none,
          Event.audioStart]).st = ⟨[]⟩) :=
  ⟨(c8_lazy_single_construction envW argsW).1 ⟨[]⟩ ⟨none, none, none⟩
      [Event.audioChunk "x", Event.audioChunk "y", Event.describe] rfl,
    (c8_lazy_single_construction envW argsW).2.1 ⟨[]⟩ ⟨none, none, none⟩
      [Event.describe, Event.transcribe (some "en") none, Event.audioStart]
      (by
        intro e he a
        simp only [List.mem_cons, List.not_mem_nil, or_false] at he
        rcases he with h1 | h1 | h1 <;> subst h1 <;> simp)⟩

end Lemmas

end WyomingVosk
